import Mathlib

/-!
Shallow embedding of `src/summary.py`, the aggregation/upsert pipeline that
recomputes a summary collection from a raw collection of retail-product
observations.

Modelling conventions:
* A document field holds a `Value`: a string, a number (idealized as `ℚ`;
  the source works with floats, which we model with exact rationals), or
  `missing` (an absent field, which pandas materializes as `NaN`).
* A raw document is a `Row` with the fourteen projected fields.
* The pandas stages are embedded as list functions: `drop_duplicates`
  (first occurrence wins, keyed on the nine grouping fields plus Pincode),
  `groupby` with its default `dropna` behaviour (rows whose group key
  contains a missing value form no group) and named aggregations
  (`count` counts non-missing cells, `sum` sums, `mean` averages the
  non-missing values and is missing when all values are missing).
* The summary collection is a `Store`: a map from the 9-field key to the
  stored summary document; `UpdateOne(key, {$set: record}, upsert=True)`
  replaces (or inserts) the document at that key.
* Group emission order of `groupby` is not modelled precisely (pandas
  sorts group keys); the embedding emits groups in first-occurrence order,
  which the spec declares semantically irrelevant.
-/

/-- A cell of a document / dataframe: a string, a number, or a missing
value (pandas `NaN` standing for an absent field). -/
inductive Value where
  | str (s : String)
  | num (q : ℚ)
  | missing
deriving DecidableEq, Repr

/-- A raw observation, projected to the fourteen fields the pipeline reads. -/
structure Row where
  City : Value
  Company : Value
  Client_Name : Value
  Brand : Value
  Name : Value
  Unique_Product_ID : Value
  MRP : Value
  Selling_Price : Value
  Discount : Value
  Availability : Value
  Pincode : Value
  Platform : Value
  Category : Value
  Report_Date : Value
deriving DecidableEq, Repr

/-- Python `str` applied to a cell, as used by the availability-flag
helpers. A string renders as itself and a missing cell (`NaN`) renders as
"nan". For numeric cells only the fact that the rendering is a numeral
(never the words yes or no) matters to the pipeline; the exact float
formatting of Python is abstracted by the rational rendering. -/
def pyStr : Value → String
  | Value.str s => s
  | Value.num q => toString q
  | Value.missing => "nan"

/-- Python `str.strip`: drop leading and trailing whitespace. -/
def pyStrip (s : String) : String :=
  String.mk (((s.data.dropWhile Char.isWhitespace).reverse.dropWhile Char.isWhitespace).reverse)

/-- Python `str.lower`. -/
def pyLower (s : String) : String :=
  String.mk (s.data.map Char.toLower)

/-- `str(av).strip().lower()` - the normalized availability text. -/
def availNorm (av : Value) : String :=
  pyLower (pyStrip (pyStr av))

/-- Source `compute_availability_flag`: 1 if the item is listed
(Availability Yes or No), otherwise 0. -/
def compute_availability_flag (av : Value) : Nat :=
  if [ "yes", "no" ].contains (availNorm av) then 1 else 0

/-- Source `compute_available_flag`: 1 if the item is available
(Availability Yes), otherwise 0. -/
def compute_available_flag (av : Value) : Nat :=
  if availNorm av = "yes" then 1 else 0

/-- Numeric value of a list of decimal digit characters. -/
def digitsToNat (cs : List Char) : Nat :=
  cs.foldl (fun a c => a * 10 + (c.toNat - 48)) 0

/-- Parse an unsigned decimal literal: digits with an optional fractional
part separated by a dot (at least one digit overall). Models the grammar
`pd.to_numeric` accepts for the plain decimal fragment relevant to this
spec; exotic float spellings (exponents, infinities) are outside the
model. -/
def parseUnsignedChars (cs : List Char) : Option ℚ :=
  let ip := cs.takeWhile (fun c => c != ('.'))
  match cs.drop ip.length with
  | [] =>
      if ip.isEmpty then none
      else if ip.all Char.isDigit then some ((digitsToNat ip : ℚ)) else none
  | _ :: fp =>
      if ip.isEmpty && fp.isEmpty then none
      else if ip.all Char.isDigit && fp.all Char.isDigit then
        some ((digitsToNat ip : ℚ) + (digitsToNat fp : ℚ) / (10 : ℚ) ^ fp.length)
      else none

/-- `pd.to_numeric(x, errors="coerce")` on one cell: numbers pass through,
a missing cell stays missing, a string is parsed as a (possibly signed)
decimal literal and becomes missing when unparsable. Total by
construction: no input raises. -/
def to_numeric (v : Value) : Option ℚ :=
  match v with
  | Value.num q => some q
  | Value.missing => none
  | Value.str s =>
      match (pyStrip s).data with
      | [] => none
      | c :: cs =>
          if c = ('-') then (parseUnsignedChars cs).map (fun q => -q)
          else if c = ('+') then parseUnsignedChars cs
          else parseUnsignedChars (c :: cs)

/-- The nine grouping fields of a row, in the order the source lists them. -/
def gkeyRaw (r : Row) : List Value :=
  [r.City, r.Company, r.Client_Name, r.Brand, r.Name, r.Unique_Product_ID,
   r.Platform, r.Category, r.Report_Date]

/-- The `drop_duplicates` subset: the nine grouping fields plus Pincode.
Pandas considers two `NaN` cells equal here, which the `Value.missing`
equality mirrors. -/
def dkey (r : Row) : List Value :=
  gkeyRaw r ++ [r.Pincode]

/-- Whether all nine grouping fields are present. Pandas `groupby` (with
its default `dropna=True`) forms groups only from rows whose key levels
are all non-missing. -/
def keyComplete (r : Row) : Bool :=
  decide (Value.missing ∉ gkeyRaw r)

/-- The group key of a row, or `none` when a grouping field is missing
(such rows belong to no group under default `groupby`). -/
def gkeyOpt (r : Row) : Option (List Value) :=
  if keyComplete r then some (gkeyRaw r) else none

/-- Whether the Pincode cell is present; pandas `count` aggregation counts
exactly the non-missing cells. -/
def pinPresent (r : Row) : Bool :=
  decide (r.Pincode ≠ Value.missing)

/-- Generic first-occurrence-wins de-duplication by a key function:
an element is kept iff its key did not occur earlier in the list. This is
the semantics of `DataFrame.drop_duplicates(subset=...)`. -/
def dedupBy {α : Type} {β : Type} [DecidableEq β] (f : α → β) : List α → List α
  | [] => []
  | a :: as => a :: (dedupBy f as).filter (fun x => !(decide (f x = f a)))

/-- Source line `unique_pincode = raw.drop_duplicates(subset=[... , "Pincode"])`. -/
def drop_duplicates (rows : List Row) : List Row :=
  dedupBy dkey rows

/-- The distinct group keys of a row list, in first-occurrence order. -/
def keysOf (rows : List Row) : List (List Value) :=
  dedupBy id (rows.filterMap gkeyOpt)

/-- The rows of a list belonging to the group with key `k`. -/
def groupRows (rows : List Row) (k : List Value) : List Row :=
  rows.filter (fun r => decide (gkeyOpt r = some k))

/-- Pandas `mean`: the arithmetic mean of the given (non-missing) values,
or missing when there are none. -/
def meanOpt (qs : List ℚ) : Option ℚ :=
  if qs.isEmpty then none else some (qs.sum / (qs.length : ℚ))

/-- One output document of the aggregation: the nine key fields plus the
six computed metrics. -/
structure SummaryRec where
  key : List Value
  totalCount : Nat
  listedCount : Nat
  availableCount : Nat
  MRP : Option ℚ
  Selling_Price : Option ℚ
  Discount : Option ℚ
deriving DecidableEq, Repr

/-- The named aggregations of the source applied to one group `g` (the
de-duplicated rows sharing key `k`):
`totalCount = ("Pincode", "count")` (non-missing Pincode cells),
`listedCount = ("availabilityFlag", "sum")`,
`availableCount = ("availableFlag", "sum")`, and the three price means.
The flag columns and the coerced numeric columns are computed row-wise
before the dedup (they are not part of the dedup subset, so applying them
to the surviving rows is equivalent). -/
def summarizeGroup (k : List Value) (g : List Row) : SummaryRec where
  key := k
  totalCount := (g.filter pinPresent).length
  listedCount := (g.map (fun r => compute_availability_flag r.Availability)).sum
  availableCount := (g.map (fun r => compute_available_flag r.Availability)).sum
  MRP := meanOpt (g.filterMap (fun r => to_numeric r.MRP))
  Selling_Price := meanOpt (g.filterMap (fun r => to_numeric r.Selling_Price))
  Discount := meanOpt (g.filterMap (fun r => to_numeric r.Discount))

/-- The `groupby(...).agg(...)` of the source applied to de-duplicated
rows: one summary record per distinct (complete) group key. -/
def aggregate (rows : List Row) : List SummaryRec :=
  (keysOf rows).map (fun k => summarizeGroup k (groupRows rows k))

/-- Source `df_summary`: the aggregation applied to the de-duplicated raw
rows. -/
def df_summary (raw : List Row) : List SummaryRec :=
  aggregate (drop_duplicates raw)

/-- The summary collection, modelled as a map from the 9-field group key
to the stored summary document (the unique index on the key justifies the
keyed view; documents carry exactly the fields this pipeline writes). -/
def Store : Type :=
  List Value → Option SummaryRec

/-- One `UpdateOne(key, {$set: record}, upsert=True)`: the document whose
key fields match is replaced by the computed record (a full overwrite of
every written field), and a missing document is inserted. -/
def upsert (s : Store) (rec : SummaryRec) : Store :=
  fun k => if k = rec.key then some rec else s k

/-- The net effect of issuing one upsert per record, in order - the
reference semantics a batched bulk write must refine. -/
def applyOps (s : Store) (recs : List SummaryRec) : Store :=
  recs.foldl upsert s

/-- The source's flush threshold: `if len(ops) >= 500`. -/
def BATCH_SIZE : Nat := 500

/-- One iteration of the source's upsert loop: append the operation to the
buffer; if the buffer has reached the batch size, `bulk_write` it and
clear it. -/
def flushStep (acc : Store × List SummaryRec) (rec : SummaryRec) : Store × List SummaryRec :=
  let ops := acc.2 ++ [rec]
  if BATCH_SIZE ≤ ops.length then (applyOps acc.1 ops, []) else (acc.1, ops)

/-- The trailing `if ops:` flush after the loop: a non-empty remaining
buffer is `bulk_write`-n unconditionally. -/
def finalFlush (acc : Store × List SummaryRec) : Store :=
  if acc.2.isEmpty then acc.1 else applyOps acc.1 acc.2

/-- The source's batched upsert loop: run `flushStep` over all records
starting from an empty buffer, then (`if ops:`) flush the remaining
partial buffer. -/
def bulk_upsert_loop (s : Store) (recs : List SummaryRec) : Store :=
  finalFlush (recs.foldl flushStep (s, []))

/-- Default raw collection name from the source configuration. -/
def RAW_COLLECTION : String := "products"

/-- Default summary collection name from the source configuration. -/
def SUMMARY_COLLECTION : String := "products_summary"

/-- Observable outcome of one invocation of `main`: the resulting summary
collection, whether the unique index was (re)created, and the printed
diagnostics. The function is total: the model covers the pipeline's own
logic, in which every run returns normally (store connectivity failures
propagate outside this model). -/
structure RunResult where
  store : Store
  indexCreated : Bool
  diagnostics : List String

/-- The source `main`, given the raw collection contents and the current
summary collection: an empty extract short-circuits with a diagnostic and
no writes; otherwise the summary records are computed, bulk-upserted in
batches, the unique index is ensured, and a count line is printed. -/
def run (raw : List Row) (s : Store) : RunResult :=
  if raw.isEmpty then
    { store := s
      indexCreated := false
      diagnostics := ["No raw data found in collection " ++ RAW_COLLECTION] }
  else
    let recs := df_summary raw
    { store := bulk_upsert_loop s recs
      indexCreated := true
      diagnostics := ["Upserted " ++ toString recs.length ++ " summary records into " ++ SUMMARY_COLLECTION] }

/-- A complete sample observation: all nine grouping fields present,
Pincode "1", Availability "Yes", prices missing. -/
def row1 : Row where
  City := Value.str ("c")
  Company := Value.str ("co")
  Client_Name := Value.str ("cl")
  Brand := Value.str ("b")
  Name := Value.str ("n")
  Unique_Product_ID := Value.str ("u")
  MRP := Value.missing
  Selling_Price := Value.missing
  Discount := Value.missing
  Availability := Value.str ("Yes")
  Pincode := Value.str ("1")
  Platform := Value.str ("pl")
  Category := Value.str ("ca")
  Report_Date := Value.str ("d")

/-- Same group as `row1`, second pincode, explicitly not available. -/
def row2 : Row :=
  { row1 with Pincode := Value.str ("2"), Availability := Value.str ("No") }

/-- Same group as `row1` but with a missing Pincode cell. -/
def rowNP : Row :=
  { row1 with Pincode := Value.missing }

/-- Same group as `row1` but with a non-numeric MRP cell. -/
def rowM : Row :=
  { row1 with MRP := Value.str ("abc") }

/-- A row whose City (a grouping field) is missing. -/
def rowB : Row :=
  { row1 with City := Value.missing, Pincode := Value.str ("9") }

/-- The shared 9-field group key of the sample rows. -/
def key1 : List Value := gkeyRaw row1

/-- Expected summary record for `[row1, row2]`. -/
def rec12 : SummaryRec where
  key := key1
  totalCount := 2
  listedCount := 2
  availableCount := 1
  MRP := none
  Selling_Price := none
  Discount := none

/-- Expected summary record for `[rowM]`. -/
def recM : SummaryRec where
  key := key1
  totalCount := 1
  listedCount := 1
  availableCount := 1
  MRP := none
  Selling_Price := none
  Discount := none

/-- Expected summary record for `[row1]`. -/
def rec1 : SummaryRec where
  key := key1
  totalCount := 1
  listedCount := 1
  availableCount := 1
  MRP := none
  Selling_Price := none
  Discount := none

/-! ### Helper lemmas about first-occurrence de-duplication -/

lemma mem_of_mem_dedupBy {α β : Type} [DecidableEq β] {f : α → β} {l : List α} {x : α}
    (h : x ∈ dedupBy f l) : x ∈ l := by
  induction l with
  | nil => simp [dedupBy] at h
  | cons a as ih =>
    simp only [dedupBy, List.mem_cons] at h
    rcases h with h | h
    · exact h ▸ List.mem_cons_self a as
    · exact List.mem_cons_of_mem a (ih (List.mem_filter.mp h).1)

lemma mem_dedupBy_id_iff {α : Type} [DecidableEq α] {l : List α} {x : α} :
    x ∈ dedupBy id l ↔ x ∈ l := by
  constructor
  · exact mem_of_mem_dedupBy
  · intro hx
    induction l with
    | nil => simp at hx
    | cons a as ih =>
      simp only [dedupBy, List.mem_cons]
      rcases List.mem_cons.mp hx with h | h
      · exact Or.inl h
      · by_cases hxa : x = a
        · exact Or.inl hxa
        · exact Or.inr (List.mem_filter.mpr ⟨ih h, by simpa using hxa⟩)

lemma dedupBy_filter {α β : Type} [DecidableEq β] {f : α → β} (p : α → Bool)
    (hp : ∀ x y, f x = f y → p x = p y) (l : List α) :
    (dedupBy f l).filter p = dedupBy f (l.filter p) := by
  induction l with
  | nil => simp [dedupBy]
  | cons a as ih =>
    cases hpa : p a with
    | true =>
      rw [List.filter_cons_of_pos hpa]
      show (a :: (dedupBy f as).filter (fun x => !(decide (f x = f a)))).filter p
          = a :: (dedupBy f (as.filter p)).filter (fun x => !(decide (f x = f a)))
      rw [List.filter_cons_of_pos hpa, List.filter_filter, ← ih, List.filter_filter]
      exact congrArg _ (List.filter_congr (fun x _ => Bool.and_comm _ _))
    | false =>
      rw [List.filter_cons_of_neg (by simp [hpa])]
      show (a :: (dedupBy f as).filter (fun x => !(decide (f x = f a)))).filter p
          = dedupBy f (as.filter p)
      rw [List.filter_cons_of_neg (by simp [hpa]), List.filter_filter, ← ih]
      refine List.filter_congr (fun x _ => ?_)
      cases hpx : p x with
      | true =>
        have hfx : f x ≠ f a := fun hfe => by
          have h2 := hp x a hfe
          rw [hpx, hpa] at h2
          exact absurd h2 (by simp)
        simp [hpx, hfx]
      | false => simp [hpx]

lemma dedupBy_idem {α β : Type} [DecidableEq β] (f : α → β) (l : List α) :
    dedupBy f (dedupBy f l) = dedupBy f l := by
  induction l with
  | nil => simp [dedupBy]
  | cons a as ih =>
    show dedupBy f (a :: (dedupBy f as).filter (fun x => !(decide (f x = f a))))
        = a :: (dedupBy f as).filter (fun x => !(decide (f x = f a)))
    show a :: (dedupBy f ((dedupBy f as).filter (fun x => !(decide (f x = f a))))).filter
        (fun x => !(decide (f x = f a))) = _
    rw [← dedupBy_filter (fun x => !(decide (f x = f a)))
      (fun x y hxy => by simp [hxy]) (dedupBy f as), ih, List.filter_filter]
    exact congrArg _ (List.filter_congr (fun x _ => by simp))

lemma nodup_map_dedupBy {α β : Type} [DecidableEq β] (f : α → β) (l : List α) :
    ((dedupBy f l).map f).Nodup := by
  induction l with
  | nil => simp [dedupBy]
  | cons a as ih =>
    simp only [dedupBy, List.map_cons, List.nodup_cons]
    refine ⟨fun hmem => ?_, ?_⟩
    · rcases List.mem_map.mp hmem with ⟨x, hx, hfx⟩
      have hne := (List.mem_filter.mp hx).2
      simp only [Bool.not_eq_eq_eq_not, Bool.not_true, decide_eq_false_iff_not] at hne
      exact hne hfx
    · exact List.Nodup.sublist ((List.filter_sublist _).map f) ih

lemma nodup_dedupBy_id {α : Type} [DecidableEq α] (l : List α) :
    (dedupBy id l).Nodup := by
  simpa using nodup_map_dedupBy id l

/-! ### Helper lemmas about keys -/

lemma dkey_eq_iff {a b : Row} :
    dkey a = dkey b ↔ gkeyRaw a = gkeyRaw b ∧ a.Pincode = b.Pincode := by
  constructor
  · intro h
    have hlen : (gkeyRaw a).length = (gkeyRaw b).length := rfl
    rcases List.append_inj h hlen with ⟨h1, h2⟩
    exact ⟨h1, by injection h2⟩
  · rintro ⟨h1, h2⟩
    unfold dkey
    rw [h1, h2]

lemma keyComplete_congr {a b : Row} (h : gkeyRaw a = gkeyRaw b) :
    keyComplete a = keyComplete b := by
  unfold keyComplete
  rw [h]

lemma gkeyOpt_eq_some {r : Row} {k : List Value} (h : gkeyOpt r = some k) :
    keyComplete r = true ∧ gkeyRaw r = k := by
  unfold gkeyOpt at h
  split at h
  · exact ⟨by assumption, Option.some.inj h⟩
  · exact absurd h (by simp)

lemma gkeyOpt_eq_none {r : Row} (h : keyComplete r = false) : gkeyOpt r = none := by
  unfold gkeyOpt
  simp [h]

/-! ### Helper lemmas about the availability flags -/

lemma availability_flag_le_one (av : Value) : compute_availability_flag av ≤ 1 := by
  unfold compute_availability_flag
  split <;> simp

lemma available_le_availability (av : Value) :
    compute_available_flag av ≤ compute_availability_flag av := by
  by_cases h : availNorm av = "yes"
  · simp [compute_available_flag, compute_availability_flag, h]
  · simp [compute_available_flag, h]

lemma sum_map_le_length (g : List Row) (f : Row → Nat) (hf : ∀ r, f r ≤ 1) :
    (g.map f).sum ≤ g.length := by
  induction g with
  | nil => simp
  | cons r rs ih =>
    simp only [List.map_cons, List.sum_cons, List.length_cons]
    have := hf r
    omega

/-! ### Helper lemmas about the store and the upsert loop -/

lemma applyOps_append (s : Store) (recs₁ recs₂ : List SummaryRec) :
    applyOps s (recs₁ ++ recs₂) = applyOps (applyOps s recs₁) recs₂ :=
  List.foldl_append upsert s recs₁ recs₂

lemma applyOps_eval (recs : List SummaryRec) : ∀ (s : Store) (k : List Value),
    applyOps s recs k
      = ((recs.reverse.find? (fun r => decide (r.key = k))).map some).getD (s k) := by
  induction recs with
  | nil => intro s k; simp [applyOps]
  | cons r rs ih =>
    intro s k
    show applyOps (upsert s r) rs k = _
    rw [ih]
    simp only [List.reverse_cons, List.find?_append]
    cases hf : rs.reverse.find? (fun r => decide (r.key = k)) with
    | some r2 => simp [hf, Option.or]
    | none =>
      simp only [hf, Option.none_or]
      by_cases hk : r.key = k
      · simp [upsert, List.find?, hk]
      · simp [upsert, List.find?, hk, Ne.symm hk]

lemma applyOps_idem (s : Store) (recs : List SummaryRec) :
    applyOps (applyOps s recs) recs = applyOps s recs := by
  funext k
  simp only [applyOps_eval]
  cases hf : recs.reverse.find? (fun r => decide (r.key = k)) with
  | some r => simp
  | none => simp

lemma finalFlush_foldl (recs : List SummaryRec) : ∀ (s : Store) (buf : List SummaryRec),
    finalFlush (recs.foldl flushStep (s, buf)) = applyOps s (buf ++ recs) := by
  induction recs with
  | nil =>
    intro s buf
    cases buf with
    | nil => simp [finalFlush, applyOps]
    | cons b bs => simp [finalFlush, applyOps]
  | cons r rs ih =>
    intro s buf
    show finalFlush (rs.foldl flushStep (flushStep (s, buf) r)) = _
    rw [show flushStep (s, buf) r
        = if BATCH_SIZE ≤ (buf ++ [r]).length
          then (applyOps s (buf ++ [r]), []) else (s, buf ++ [r]) from rfl]
    by_cases h : BATCH_SIZE ≤ (buf ++ [r]).length
    · rw [if_pos h, ih]
      rw [show ([] : List SummaryRec) ++ rs = rs from rfl, ← applyOps_append]
      simp
    · rw [if_neg h, ih]
      simp

/-! ### Helper lemmas about grouping and aggregation -/

lemma summarizeGroup_key (k : List Value) (g : List Row) :
    (summarizeGroup k g).key = k := rfl

lemma mem_df_summary {raw : List Row} {rec : SummaryRec} :
    rec ∈ df_summary raw
      ↔ ∃ k ∈ keysOf (drop_duplicates raw),
          rec = summarizeGroup k (groupRows (drop_duplicates raw) k) := by
  simp only [df_summary, aggregate, List.mem_map, eq_comm]

lemma map_key_df_summary (raw : List Row) :
    (df_summary raw).map SummaryRec.key = keysOf (drop_duplicates raw) := by
  simp only [df_summary, aggregate, List.map_map]
  exact List.map_id _ ▸ rfl

lemma mem_keysOf {rows : List Row} {k : List Value} :
    k ∈ keysOf rows ↔ ∃ r ∈ rows, gkeyOpt r = some k := by
  rw [keysOf, mem_dedupBy_id_iff, List.mem_filterMap]

lemma dkey_determines_keyComplete :
    ∀ x y : Row, dkey x = dkey y → keyComplete x = keyComplete y :=
  fun _ _ h => keyComplete_congr (dkey_eq_iff.mp h).1

lemma filterMap_gkeyOpt_filter (l : List Row) :
    (l.filter keyComplete).filterMap gkeyOpt = l.filterMap gkeyOpt := by
  induction l with
  | nil => rfl
  | cons r rs ih =>
    cases h : keyComplete r with
    | true =>
      rw [List.filter_cons_of_pos h, List.filterMap_cons, List.filterMap_cons, ih]
    | false =>
      rw [List.filter_cons_of_neg (by simp [h]), List.filterMap_cons,
        gkeyOpt_eq_none h, ih]

lemma groupRows_filter_keyComplete (l : List Row) (k : List Value) :
    groupRows (l.filter keyComplete) k = groupRows l k := by
  unfold groupRows
  rw [List.filter_filter]
  refine List.filter_congr (fun r _ => ?_)
  cases hp : decide (gkeyOpt r = some k) with
  | true =>
    have hk := (gkeyOpt_eq_some (of_decide_eq_true hp)).1
    simp [hk]
  | false => simp

lemma df_summary_filter_keyComplete (raw : List Row) :
    df_summary (raw.filter keyComplete) = df_summary raw := by
  unfold df_summary
  have hd : drop_duplicates (raw.filter keyComplete)
      = (drop_duplicates raw).filter keyComplete :=
    (dedupBy_filter keyComplete dkey_determines_keyComplete raw).symm
  rw [hd]
  unfold aggregate keysOf
  rw [filterMap_gkeyOpt_filter]
  refine List.map_congr_left (fun k _ => ?_)
  rw [groupRows_filter_keyComplete]

lemma bulk_loop_eq_applyOps (s : Store) (recs : List SummaryRec) :
    bulk_upsert_loop s recs = applyOps s recs := by
  have h := finalFlush_foldl recs s []
  simpa [bulk_upsert_loop] using h

/-! ### Claim theorems -/

/-- Claim C2: for every Availability cell (string, numeric or missing -
non-strings are first rendered to their Python string form), the derived
listed flag is 1 exactly when the trimmed, case-folded rendering is
"yes" or "no" (else 0), the available flag is 1 exactly when it is "yes"
(else 0), and a missing cell yields flags 0/0. -/
theorem availability_flags_spec (v : Value) :
    (compute_availability_flag v = 1
      ↔ (pyLower (pyStrip (pyStr v)) = "yes" ∨ pyLower (pyStrip (pyStr v)) = "no"))
    ∧ (compute_availability_flag v = 1 ∨ compute_availability_flag v = 0)
    ∧ (compute_available_flag v = 1 ↔ pyLower (pyStrip (pyStr v)) = "yes")
    ∧ (compute_available_flag v = 1 ∨ compute_available_flag v = 0)
    ∧ compute_availability_flag Value.missing = 0
    ∧ compute_available_flag Value.missing = 0 := by
  refine ⟨?_, ?_, ?_, ?_, by decide, by decide⟩
  · show compute_availability_flag v = 1 ↔ (availNorm v = "yes" ∨ availNorm v = "no")
    simp only [compute_availability_flag]
    split <;> rename_i h <;> simp at h <;> simp [h]
  · unfold compute_availability_flag
    split <;> simp
  · show compute_available_flag v = 1 ↔ availNorm v = "yes"
    simp [compute_available_flag]
  · unfold compute_available_flag
    split <;> simp

/-- Claim C4: the dedup phase (collapse of rows identical on the nine
group-key fields plus Pincode, first occurrence winning) is idempotent:
applying it to its own output is a no-op. -/
theorem drop_duplicates_idempotent (t : List Row) :
    drop_duplicates (drop_duplicates t) = drop_duplicates t :=
  dedupBy_idem dkey t

/-- Claim C6: running the full pipeline twice with unchanged raw input
leaves the summary collection identical, field for field, to running it
once - each run upserts each computed record on its 9-field key with a
full overwrite, for every starting summary-collection state. -/
theorem pipeline_idempotent (raw : List Row) (s : Store) :
    (run raw ((run raw s).store)).store = (run raw s).store := by
  by_cases h : raw.isEmpty
  · simp [run, h]
  · simp only [run, h, Bool.false_eq_true, if_false, if_neg]
    rw [bulk_loop_eq_applyOps, bulk_loop_eq_applyOps]
    exact applyOps_idem s (df_summary raw)

/-- Claim C7: numeric coercion is a total, silent function: numbers pass
through unchanged (so "12.5" and the number 12.5 coerce identically),
"12.5" parses to 12.5, and non-numeric content such as "" and "abc"
becomes the missing marker; every input yields a value (never an error),
as captured by the exhaustive last conjunct. -/
theorem to_numeric_total_spec :
    (∀ q : ℚ, to_numeric (Value.num q) = some q)
    ∧ to_numeric (Value.str ("12.5")) = some ((25 : ℚ) / 2)
    ∧ to_numeric (Value.str ("12.5")) = to_numeric (Value.num ((25 : ℚ) / 2))
    ∧ to_numeric (Value.str ("")) = none
    ∧ to_numeric (Value.str ("abc")) = none
    ∧ (∀ v : Value, to_numeric v = none ∨ ∃ q : ℚ, to_numeric v = some q) := by
  refine ⟨fun q => rfl, ?_, ?_, by decide, by decide, ?_⟩
  · simp [to_numeric, pyStrip, parseUnsignedChars, digitsToNat]
    norm_num
  · simp [to_numeric, pyStrip, parseUnsignedChars, digitsToNat]
    norm_num
  · intro v
    cases h : to_numeric v with
    | none => exact Or.inl rfl
    | some q => exact Or.inr ⟨q, rfl⟩

/-- Claim C8: on an empty raw collection the pipeline short-circuits: it
prints the no-raw-data diagnostic, writes nothing to the summary store,
does not create the uniqueness index, and returns normally (the model is
a total function, so this outcome is a success, not an error). -/
theorem empty_input_short_circuit (s : Store) :
    run [] s = { store := s
                 indexCreated := false
                 diagnostics := ["No raw data found in collection " ++ RAW_COLLECTION] } := rfl

/-- Claim C9: the batched upsert loop - append each operation to a
buffer, flush and clear on reaching 500 operations, flush any remaining
non-empty partial buffer after the loop (this is the definition of
`bulk_upsert_loop`) - has the same net effect on the summary collection
as issuing one upsert per record, so no trailing records are dropped. -/
theorem batched_upsert_refines_sequential (s : Store) (recs : List SummaryRec) :
    bulk_upsert_loop s recs = applyOps s recs :=
  bulk_loop_eq_applyOps s recs

lemma meanOpt_eq_none {qs : List ℚ} (h : qs = []) : meanOpt qs = none := by
  simp [meanOpt, h]

lemma meanOpt_eq_some {qs : List ℚ} (h : qs ≠ []) :
    meanOpt qs = some (qs.sum / (qs.length : ℚ)) := by
  simp [meanOpt, List.isEmpty_iff, h]

/-- Claim C1, counterexample: on a raw input whose single row has all nine
key fields present but a missing Pincode, the group appears with
totalCount 0 (pandas `count` skips the missing cell) although the group
has one row (and one distinct Pincode value), refuting the claimed
equality between totalCount and the group's row count. -/
theorem grouping_totalCount_cex :
    ¬ ∀ rec ∈ df_summary [rowNP],
        rec.totalCount = (groupRows (drop_duplicates [rowNP]) rec.key).length := by
  decide

/-- Claim C1 (amended): every distinct 9-key combination of the
de-duplicated input whose nine fields are all present appears exactly
once in the aggregated output, and the totalCount of that group's row
equals the number of rows of the group whose Pincode is present -
equivalently the number of distinct non-missing Pincode values, the
group's Pincode cells being pairwise distinct after dedup. -/
theorem grouping_completeness_amended (raw : List Row) :
    ((df_summary raw).map SummaryRec.key).Nodup
    ∧ (∀ k : List Value,
        (∃ rec ∈ df_summary raw, rec.key = k)
          ↔ ∃ r ∈ drop_duplicates raw, gkeyOpt r = some k)
    ∧ ∀ rec ∈ df_summary raw,
        rec.totalCount
            = ((groupRows (drop_duplicates raw) rec.key).filter pinPresent).length
          ∧ ((groupRows (drop_duplicates raw) rec.key).map Row.Pincode).Nodup := by
  refine ⟨?_, ?_, ?_⟩
  · rw [map_key_df_summary]
    exact nodup_dedupBy_id _
  · intro k
    constructor
    · rintro ⟨rec, hrec, hkey⟩
      rcases mem_df_summary.mp hrec with ⟨k2, hk2, hrec_eq⟩
      have hrk : rec.key = k2 := by rw [hrec_eq, summarizeGroup_key]
      rw [← hkey, hrk]
      exact mem_keysOf.mp hk2
    · intro hex
      exact ⟨summarizeGroup k (groupRows (drop_duplicates raw) k),
        mem_df_summary.mpr ⟨k, mem_keysOf.mpr hex, rfl⟩, rfl⟩
  · intro rec hrec
    rcases mem_df_summary.mp hrec with ⟨k, _, rfl⟩
    refine ⟨rfl, ?_⟩
    show ((groupRows (drop_duplicates raw) k).map Row.Pincode).Nodup
    have hdk : ((drop_duplicates raw).map dkey).Nodup := nodup_map_dedupBy dkey raw
    have hgdk : ((groupRows (drop_duplicates raw) k).map dkey).Nodup :=
      List.Nodup.sublist ((List.filter_sublist _).map dkey) hdk
    unfold List.Nodup at hgdk ⊢
    rw [List.pairwise_map] at hgdk ⊢
    refine List.Pairwise.imp_of_mem (fun {a b} ha hb hab => ?_) hgdk
    intro hpin
    apply hab
    have hka := (gkeyOpt_eq_some (of_decide_eq_true (List.mem_filter.mp ha).2)).2
    have hkb := (gkeyOpt_eq_some (of_decide_eq_true (List.mem_filter.mp hb).2)).2
    exact dkey_eq_iff.mpr ⟨hka.trans hkb.symm, hpin⟩

/-- Witness for the amended claim C1, at the two-pincode sample input. -/
theorem grouping_completeness_amended_witness :
    rec12.totalCount
      = ((groupRows (drop_duplicates [row1, row2]) rec12.key).filter pinPresent).length :=
  ((grouping_completeness_amended [row1, row2]).2.2 rec12 (by decide)).1

/-- Claim C3: each summary price field is the arithmetic mean of the
non-missing coerced values over the de-duplicated rows of the group, and
is missing - not 0 - when every value in the group is missing. -/
theorem group_means_spec (raw : List Row) (rec : SummaryRec)
    (h : rec ∈ df_summary raw) :
    ((groupRows (drop_duplicates raw) rec.key).filterMap (fun r => to_numeric r.MRP) = []
      → rec.MRP = none)
    ∧ ((groupRows (drop_duplicates raw) rec.key).filterMap (fun r => to_numeric r.MRP) ≠ []
      → rec.MRP = some
          (((groupRows (drop_duplicates raw) rec.key).filterMap (fun r => to_numeric r.MRP)).sum
            / (((groupRows (drop_duplicates raw) rec.key).filterMap (fun r => to_numeric r.MRP)).length : ℚ)))
    ∧ ((groupRows (drop_duplicates raw) rec.key).filterMap (fun r => to_numeric r.Selling_Price) = []
      → rec.Selling_Price = none)
    ∧ ((groupRows (drop_duplicates raw) rec.key).filterMap (fun r => to_numeric r.Selling_Price) ≠ []
      → rec.Selling_Price = some
          (((groupRows (drop_duplicates raw) rec.key).filterMap (fun r => to_numeric r.Selling_Price)).sum
            / (((groupRows (drop_duplicates raw) rec.key).filterMap (fun r => to_numeric r.Selling_Price)).length : ℚ)))
    ∧ ((groupRows (drop_duplicates raw) rec.key).filterMap (fun r => to_numeric r.Discount) = []
      → rec.Discount = none)
    ∧ ((groupRows (drop_duplicates raw) rec.key).filterMap (fun r => to_numeric r.Discount) ≠ []
      → rec.Discount = some
          (((groupRows (drop_duplicates raw) rec.key).filterMap (fun r => to_numeric r.Discount)).sum
            / (((groupRows (drop_duplicates raw) rec.key).filterMap (fun r => to_numeric r.Discount)).length : ℚ))) := by
  rcases mem_df_summary.mp h with ⟨k, _, rfl⟩
  simp only [summarizeGroup_key]
  exact ⟨fun hv => meanOpt_eq_none hv, fun hv => meanOpt_eq_some hv,
    fun hv => meanOpt_eq_none hv, fun hv => meanOpt_eq_some hv,
    fun hv => meanOpt_eq_none hv, fun hv => meanOpt_eq_some hv⟩

/-- Witness for claim C3: a group whose only MRP cell is the non-numeric
string "abc" gets a missing MRP mean, not 0. -/
theorem group_means_spec_witness : recM.MRP = none :=
  (group_means_spec [rowM] recM (by decide)).1 (by decide)

/-- Claim C5, counterexample: a single raw row with all nine key fields
present, a missing Pincode and Availability "Yes" yields a summary record
with listedCount 1 but totalCount 0, refuting listedCount ≤ totalCount. -/
theorem counts_invariant_cex :
    ¬ ∀ rec ∈ df_summary [rowNP],
        rec.availableCount ≤ rec.listedCount ∧ rec.listedCount ≤ rec.totalCount := by
  decide

/-- Claim C5 (amended): for every summary record,
0 ≤ availableCount ≤ listedCount always holds, listedCount is bounded by
the number of rows of the group, and listedCount ≤ totalCount holds
whenever every row of the group has a present Pincode cell (totalCount
only counts those). -/
theorem counts_invariant_amended (raw : List Row) (rec : SummaryRec)
    (h : rec ∈ df_summary raw) :
    rec.availableCount ≤ rec.listedCount
    ∧ rec.listedCount ≤ (groupRows (drop_duplicates raw) rec.key).length
    ∧ ((∀ r ∈ groupRows (drop_duplicates raw) rec.key, pinPresent r = true)
        → rec.listedCount ≤ rec.totalCount) := by
  rcases mem_df_summary.mp h with ⟨k, _, rfl⟩
  simp only [summarizeGroup_key]
  refine ⟨?_, ?_, ?_⟩
  · exact List.sum_le_sum (fun r _ => available_le_availability r.Availability)
  · exact sum_map_le_length _ _ (fun r => availability_flag_le_one r.Availability)
  · intro hall
    have hfe : (groupRows (drop_duplicates raw) k).filter pinPresent
        = groupRows (drop_duplicates raw) k := List.filter_eq_self.mpr hall
    have ht : (summarizeGroup k (groupRows (drop_duplicates raw) k)).totalCount
        = ((groupRows (drop_duplicates raw) k).filter pinPresent).length := rfl
    rw [ht, hfe]
    exact sum_map_le_length _ _ (fun r => availability_flag_le_one r.Availability)

/-- Witness for the amended claim C5 at a concrete one-row input. -/
theorem counts_invariant_amended_witness : recM.availableCount ≤ recM.listedCount :=
  (counts_invariant_amended [rowM] recM (by decide)).1

/-- Claim C10: raw rows in which at least one of the nine group-key
fields is missing contribute to no group: the aggregated output over the
input equals the output over the input with those rows removed, and no
produced record's key coincides with such a row's (incomplete) key
tuple. -/
theorem incomplete_key_rows_dropped (raw : List Row) :
    df_summary raw = df_summary (raw.filter keyComplete)
    ∧ ∀ r ∈ raw, keyComplete r = false →
        ∀ rec ∈ df_summary raw, rec.key ≠ gkeyRaw r := by
  constructor
  · exact (df_summary_filter_keyComplete raw).symm
  · intro r _ hrf rec hrec
    rcases mem_df_summary.mp hrec with ⟨k, hk, rfl⟩
    simp only [summarizeGroup_key]
    rcases mem_keysOf.mp hk with ⟨r2, _, hr2⟩
    rcases gkeyOpt_eq_some hr2 with ⟨hc2, hk2⟩
    intro hkey
    have hcc := keyComplete_congr (hk2.trans hkey)
    rw [hc2, hrf] at hcc
    exact absurd hcc (by simp)

/-- Witness for claim C10: with one complete row and one row missing its
City, the only produced record is the complete row's, whose key differs
from the incomplete row's key tuple. -/
theorem incomplete_key_rows_dropped_witness : rec1.key ≠ gkeyRaw rowB :=
  (incomplete_key_rows_dropped [row1, rowB]).2 rowB (by decide) (by decide) rec1 (by decide)
